import Mathlib

/-!
Verification of the transcript reconciliation, audio scheduling and session
teardown logic of a browser voice-tutor client.  The definitions below are a
shallow embedding of `src/hooks/useGeminiLive.ts` and
`src/hooks/useGptTutor.ts` together with the shared types of `src/types.ts`.

Machine conventions:
* JavaScript timestamps (`Date.now()`) are modelled as `Nat` values passed
  explicitly to every operation that reads the clock; message `id`s
  (`Date.now().toString()` in the source) are modelled as the `Nat` timestamp
  itself.
* Audio-clock arithmetic (`AudioContext.currentTime`, buffer durations) is
  modelled over `ℚ`.
* The floating-point RMS computation inside the audio callbacks is modelled
  as an explicit function parameter `rms : List ℚ → ℚ`; everything the
  theorems state is independent of its value.
-/

/-- Role tag `'user' | 'model'` of `src/types.ts` (`ChatMessage.role`). -/
inductive Role where
  | user : Role
  | model : Role
deriving DecidableEq, Repr

/-- Structure `ChatMessage` of `src/types.ts`: `id` and `timestamp` are the JS
`Date.now()` value at creation (the source stores `id` as its string form). -/
structure ChatMessage where
  id : Nat
  role : Role
  text : String
  isComplete : Bool
  timestamp : Nat
deriving DecidableEq, Repr

/-- Enum `ConnectionState` of `src/types.ts`. -/
inductive ConnectionState where
  | DISCONNECTED : ConnectionState
  | CONNECTING : ConnectionState
  | CONNECTED : ConnectionState
  | ERROR : ConnectionState
deriving DecidableEq, Repr

/-- Function `updateStreamingMessage` (identical in `useGeminiLive.ts:247-274` and
`useGptTutor.ts:256-277`): if the last message exists, has the same role and
is not complete, replace its text in place (`prev.slice(0,-1) ++ [{...last,
text}]`); otherwise append a fresh incomplete message whose `id` and
`timestamp` are `Date.now()` (here the parameter `now`). -/
def updateStreamingMessage (role : Role) (text : String) (now : Nat)
    (prev : List ChatMessage) : List ChatMessage :=
  match prev.getLast? with
  | some last =>
      if last.role = role ∧ last.isComplete = false then
        prev.dropLast ++ [{ last with text := text }]
      else
        prev ++ [{ id := now, role := role, text := text,
                   isComplete := false, timestamp := now }]
  | none =>
      prev ++ [{ id := now, role := role, text := text,
                 isComplete := false, timestamp := now }]

/-- Function `commitMessage` (identical in `useGeminiLive.ts:277-298` and
`useGptTutor.ts:280-300`): if the last message exists, has the same role and
is not complete, set its text and mark it complete; otherwise append a fresh
already-complete message. -/
def commitMessage (role : Role) (text : String) (now : Nat)
    (prev : List ChatMessage) : List ChatMessage :=
  match prev.getLast? with
  | some last =>
      if last.role = role ∧ last.isComplete = false then
        prev.dropLast ++ [{ last with text := text, isComplete := true }]
      else
        prev ++ [{ id := now, role := role, text := text,
                   isComplete := true, timestamp := now }]
  | none =>
      prev ++ [{ id := now, role := role, text := text,
                 isComplete := true, timestamp := now }]

/-- The error placeholder written by the fallback backend when the completion
request fails (`useGptTutor.ts:229`). -/
def openAiErrorText : String := "There was an error contacting OpenAI."

/-- The placeholder text of the pending tutor turn (`useGptTutor.ts:211`). -/
def thinkingText : String := "Thinking..."

/-- Placeholder insertion of `useGptTutor.ts:205-215`: append a pending
(`isComplete = false`) model message with text `"Thinking..."`. -/
def appendPlaceholder (now : Nat) (prev : List ChatMessage) : List ChatMessage :=
  prev ++ [{ id := now, role := Role.model, text := thinkingText,
             isComplete := false, timestamp := now }]

/-- The `setMessages(prev => prev.map(...))` update of `useGptTutor.ts:219-223`
and `227-231`: every message whose id equals the pending placeholder's id gets
the given text and is marked complete; every other message is untouched. -/
def resolveTurn (pendingId : Nat) (text : String)
    (prev : List ChatMessage) : List ChatMessage :=
  prev.map fun msg =>
    if msg.id = pendingId then { msg with text := text, isComplete := true }
    else msg

/-- One transcript-mutating event of the streaming (Gemini) backend: a
partial-transcription update or a turn commit. -/
inductive StreamOp where
  | upd : Role → String → Nat → StreamOp
  | com : Role → String → Nat → StreamOp
deriving DecidableEq, Repr

/-- The speaker of a streaming transcript operation. -/
def StreamOp.role : StreamOp → Role
  | .upd r _ _ => r
  | .com r _ _ => r

/-- Dispatch of one streaming transcript operation. -/
def applyStreamOp (msgs : List ChatMessage) : StreamOp → List ChatMessage
  | .upd r t n => updateStreamingMessage r t n msgs
  | .com r t n => commitMessage r t n msgs

/-- A trace of streaming transcript operations, applied left to right. -/
def runStreamOps (msgs : List ChatMessage) (ops : List StreamOp) : List ChatMessage :=
  ops.foldl applyStreamOp msgs

/-- A turn-creating or turn-resolving transcript operation of either backend:
partial update, commit, pending-placeholder insertion, or resolution of a
placeholder by id. -/
inductive TurnOp where
  | upd : Role → String → Nat → TurnOp
  | com : Role → String → Nat → TurnOp
  | pend : Nat → TurnOp
  | res : Nat → String → TurnOp
deriving DecidableEq, Repr

/-- Dispatch of one transcript operation. -/
def applyTurnOp (msgs : List ChatMessage) : TurnOp → List ChatMessage
  | .upd r t n => updateStreamingMessage r t n msgs
  | .com r t n => commitMessage r t n msgs
  | .pend n => appendPlaceholder n msgs
  | .res pid t => resolveTurn pid t msgs

/-- A trace of transcript operations, applied left to right. -/
def runTurnOps (msgs : List ChatMessage) (ops : List TurnOp) : List ChatMessage :=
  ops.foldl applyTurnOp msgs

/-- The clock value (`Date.now()`) an operation creates ids from, when it can
create a message (`res` never creates one). -/
def TurnOp.creationTime : TurnOp → Option Nat
  | .upd _ _ n => some n
  | .com _ _ n => some n
  | .pend n => some n
  | .res _ _ => none

/-- Predicate `nowsAbove b ops`: holds when the creation clock values of `ops` are
strictly increasing and all exceed `b` (the clock never repeats a value). -/
def nowsAbove (b : Nat) : List TurnOp → Bool
  | [] => true
  | op :: rest =>
      match op.creationTime with
      | some n => decide (b < n) && nowsAbove n rest
      | none => nowsAbove b rest

/-- The §3 transcript invariant, phrased over the embedding: every message
except the tail is complete (hence at most one incomplete message exists and
it sits at the tail). -/
def allButLastComplete (msgs : List ChatMessage) : Bool :=
  msgs.dropLast.all (·.isComplete)

/-- Repeated partial updates for one speaker (`updateStreamingMessage` calls),
each fragment paired with its `Date.now()` value. -/
def applyPartials (role : Role) (prev : List ChatMessage)
    (frags : List (String × Nat)) : List ChatMessage :=
  frags.foldl (fun acc f => updateStreamingMessage role f.1 f.2 acc) prev

/-- Playback scheduling step of `useGeminiLive.ts:172-187`: the buffer starts
at `max(nextStartTime, now)` and the clock advances by the buffer's duration.
Returns `(startTime, newNextStartTime)`. -/
def scheduleAudio (nextStartTime now duration : ℚ) : ℚ × ℚ :=
  let start := max nextStartTime now
  (start, start + duration)

/-- The mutable state of the streaming (Gemini) session that the `onmessage`
interruption branch touches: the transcript, the set of in-flight playback
sources (modelled as the list of their handles), the scheduling clock
`nextStartTimeRef`, and the two transcription accumulation buffers. -/
structure GeminiState where
  messages : List ChatMessage
  audioSources : List Nat
  nextStartTime : ℚ
  currentInputTranscription : String
  currentOutputTranscription : String
deriving DecidableEq, Repr

/-- The `message.serverContent?.interrupted` branch of
`useGeminiLive.ts:217-228`: stop every active source and clear the set, reset
the scheduling clock to zero, and, if the accumulated tutor transcription is
non-empty, commit it as a model turn and clear the buffer. -/
def handleInterruption (now : Nat) (st : GeminiState) : GeminiState :=
  let st := { st with audioSources := [], nextStartTime := 0 }
  if st.currentOutputTranscription ≠ "" then
    { st with
        messages := commitMessage Role.model st.currentOutputTranscription now
          st.messages,
        currentOutputTranscription := "" }
  else st

/-- The muted branch of the Gemini `processor.onaudioprocess` callback
(`useGeminiLive.ts:134-160`): when the mic flag it observes is off it returns
at once — publishing no volume update (the previously published value stays)
and sending nothing; otherwise it publishes the frame's RMS and sends the
frame.  Returns `(publishedVolume, sentFrame)`. -/
def geminiProcessFrame (rms : List ℚ → ℚ) (isMicOn : Bool) (frame : List ℚ)
    (volume : ℚ) : ℚ × Option (List ℚ) :=
  if isMicOn = false then (volume, none)
  else (rms frame, some frame)

/-- The mutable state of the fallback (GptTutor) session: connection phase,
transcript, published volume, live mic flag, whether the recognition engine is
running, and whether its event handlers are still attached (`disconnect`
detaches them before stopping the engine). -/
structure GptState where
  connectionState : ConnectionState
  messages : List ChatMessage
  volume : ℚ
  micOn : Bool
  recognitionActive : Bool
  handlersAttached : Bool
deriving DecidableEq, Repr

/-- The fallback `processor.onaudioprocess` callback (`useGptTutor.ts:168-181`):
while the live mic flag is off every frame publishes volume 0; otherwise it
publishes the frame's RMS.  No frame is ever transmitted by this backend. -/
def gptProcessFrame (rms : List ℚ → ℚ) (frame : List ℚ) (st : GptState) :
    GptState :=
  if st.micOn = false then { st with volume := 0 }
  else { st with volume := rms frame }

/-- Function `disconnect` of `useGptTutor.ts:58-89`: the phase becomes Disconnected,
the recognition handlers are detached and the engine stopped, the capture
resources are released, and the published volume is zeroed.  The transcript is
left untouched. -/
def gptDisconnect (st : GptState) : GptState :=
  { st with
      connectionState := ConnectionState.DISCONNECTED,
      handlersAttached := false,
      recognitionActive := false,
      volume := 0 }

/-- Function `toggleMic` of `useGptTutor.ts:302-317`: flipping the mic off stops the
recognition engine and zeroes the volume; flipping it on restarts the engine
only while Connected. -/
def gptToggleMic (st : GptState) : GptState :=
  let next := !st.micOn
  if next = false then
    { st with micOn := next, recognitionActive := false, volume := 0 }
  else if st.connectionState = ConnectionState.CONNECTED then
    { st with micOn := next, recognitionActive := true }
  else
    { st with micOn := next }

/-- The recognition `onend` event as observable after setup
(`useGptTutor.ts:237-241`): if the handler is still attached it restarts the
engine exactly when the phase is Connected and the mic is on; a detached
handler makes the event a no-op. -/
def gptOnEnd (st : GptState) : GptState :=
  if st.handlersAttached then
    if st.connectionState = ConnectionState.CONNECTED ∧ st.micOn = true then
      { st with recognitionActive := true }
    else st
  else st

/-- Continuation of a successful completion request
(`useGptTutor.ts:218-224`): rewrite the pending placeholder with the reply
text and mark it complete (speech synthesis is fire-and-forget and not
modelled).  Not guarded by any session-generation check in the source. -/
def resolveCompletionSuccess (pendingId : Nat) (completion : String)
    (st : GptState) : GptState :=
  { st with messages := resolveTurn pendingId completion st.messages }

/-- Continuation of a failed completion request (`useGptTutor.ts:225-233`):
rewrite the pending placeholder with the error text, mark it complete, and set
the phase to Error.  Not guarded by any session-generation check in the
source. -/
def resolveCompletionFailure (pendingId : Nat) (st : GptState) : GptState :=
  { st with
      messages := resolveTurn pendingId openAiErrorText st.messages,
      connectionState := ConnectionState.ERROR }

/-- The final-result branch of `recognition.onresult`
(`useGptTutor.ts:201-215`): commit the user turn, then append the pending
placeholder tutor turn. -/
def gptOnFinalResult (transcript : String) (commitNow pendingNow : Nat)
    (st : GptState) : GptState :=
  { st with
      messages := appendPlaceholder pendingNow
        (commitMessage Role.user transcript commitNow st.messages) }

/-! ### Helper lemmas about the transcript reducer -/

theorem eq_nil_or_append {α : Type} (l : List α) : l = [] ∨ ∃ L a, l = L ++ [a] := by
  rcases List.eq_nil_or_concat l with h | ⟨L, b, h⟩
  · exact Or.inl h
  · exact Or.inr ⟨L, b, by simpa using h⟩

theorem updateStreamingMessage_nil (r : Role) (t : String) (n : Nat) :
    updateStreamingMessage r t n [] =
      [{ id := n, role := r, text := t, isComplete := false, timestamp := n }] :=
  rfl

theorem commitMessage_nil (r : Role) (t : String) (n : Nat) :
    commitMessage r t n [] =
      [{ id := n, role := r, text := t, isComplete := true, timestamp := n }] :=
  rfl

theorem updateStreamingMessage_concat (r : Role) (t : String) (n : Nat)
    (ms : List ChatMessage) (last : ChatMessage) :
    updateStreamingMessage r t n (ms ++ [last]) =
      if last.role = r ∧ last.isComplete = false then
        ms ++ [{ last with text := t }]
      else
        (ms ++ [last]) ++ [{ id := n, role := r, text := t,
                             isComplete := false, timestamp := n }] := by
  simp only [updateStreamingMessage, List.getLast?_concat, List.dropLast_concat]

theorem commitMessage_concat (r : Role) (t : String) (n : Nat)
    (ms : List ChatMessage) (last : ChatMessage) :
    commitMessage r t n (ms ++ [last]) =
      if last.role = r ∧ last.isComplete = false then
        ms ++ [{ last with text := t, isComplete := true }]
      else
        (ms ++ [last]) ++ [{ id := n, role := r, text := t,
                             isComplete := true, timestamp := n }] := by
  simp only [commitMessage, List.getLast?_concat, List.dropLast_concat]

/-- Both reducer operations leave every already-complete message in place:
its index and full content are preserved. -/
theorem getElem?_updateStreamingMessage_of_complete (r : Role) (t : String)
    (n : Nat) (msgs : List ChatMessage) (i : Nat) (m : ChatMessage)
    (hm : msgs[i]? = some m) (hc : m.isComplete = true) :
    (updateStreamingMessage r t n msgs)[i]? = some m := by
  rcases eq_nil_or_append msgs with rfl | ⟨ms, last, rfl⟩
  · simp at hm
  · have hi : i < ms.length + 1 := by
      simpa using (List.getElem?_eq_some.mp hm).1
    rw [updateStreamingMessage_concat]
    split
    · rcases Nat.lt_or_ge i ms.length with hlt | hge
      · rw [List.getElem?_append_left hlt] at hm ⊢
        exact hm
      · have hieq : i = ms.length := Nat.le_antisymm (Nat.lt_succ_iff.mp hi) hge
        subst hieq
        rw [List.getElem?_concat_length] at hm
        obtain rfl : last = m := by injection hm
        rename_i hmatch
        rw [hc] at hmatch
        simp at hmatch
    · rw [List.getElem?_append_left (by simpa using hi)]
      exact hm

/-- Same preservation for `commitMessage`. -/
theorem getElem?_commitMessage_of_complete (r : Role) (t : String)
    (n : Nat) (msgs : List ChatMessage) (i : Nat) (m : ChatMessage)
    (hm : msgs[i]? = some m) (hc : m.isComplete = true) :
    (commitMessage r t n msgs)[i]? = some m := by
  rcases eq_nil_or_append msgs with rfl | ⟨ms, last, rfl⟩
  · simp at hm
  · have hi : i < ms.length + 1 := by
      simpa using (List.getElem?_eq_some.mp hm).1
    rw [commitMessage_concat]
    split
    · rcases Nat.lt_or_ge i ms.length with hlt | hge
      · rw [List.getElem?_append_left hlt] at hm ⊢
        exact hm
      · have hieq : i = ms.length := Nat.le_antisymm (Nat.lt_succ_iff.mp hi) hge
        subst hieq
        rw [List.getElem?_concat_length] at hm
        obtain rfl : last = m := by injection hm
        rename_i hmatch
        rw [hc] at hmatch
        simp at hmatch
    · rw [List.getElem?_append_left (by simpa using hi)]
      exact hm

/-- Complete messages survive any trace of streaming operations at their
index. -/
theorem getElem?_runStreamOps_of_complete (ops : List StreamOp)
    (msgs : List ChatMessage) (i : Nat) (m : ChatMessage)
    (hm : msgs[i]? = some m) (hc : m.isComplete = true) :
    (runStreamOps msgs ops)[i]? = some m := by
  induction ops generalizing msgs with
  | nil => exact hm
  | cons op rest ih =>
      cases op with
      | upd r t n =>
          exact ih _ (getElem?_updateStreamingMessage_of_complete r t n msgs i m hm hc)
      | com r t n =>
          exact ih _ (getElem?_commitMessage_of_complete r t n msgs i m hm hc)

/-- After a `commitMessage`, the tail message exists and is a complete message
of the committed role and text. -/
theorem commitMessage_getLast (r : Role) (t : String) (n : Nat)
    (msgs : List ChatMessage) :
    ∃ m, (commitMessage r t n msgs).getLast? = some m ∧
      m.role = r ∧ m.text = t ∧ m.isComplete = true := by
  rcases eq_nil_or_append msgs with rfl | ⟨ms, last, rfl⟩
  · exact ⟨{ id := n, role := r, text := t, isComplete := true, timestamp := n },
      by simp [commitMessage_nil], rfl, rfl, rfl⟩
  · rw [commitMessage_concat]
    split
    · rename_i hmatch
      exact ⟨_, List.getLast?_concat ms, hmatch.1, rfl, rfl⟩
    · exact ⟨_, List.getLast?_concat _, rfl, rfl, rfl⟩

/-- After an `updateStreamingMessage`, the tail message exists and is an
incomplete message of the given role whose text is the latest fragment;
moreover the length grows by at most one, and does not grow at all when the
previous tail was already an incomplete message of the same role. -/
theorem updateStreamingMessage_getLast (r : Role) (t : String) (n : Nat)
    (msgs : List ChatMessage) :
    ∃ m, (updateStreamingMessage r t n msgs).getLast? = some m ∧
      m.role = r ∧ m.text = t ∧ m.isComplete = false := by
  rcases eq_nil_or_append msgs with rfl | ⟨ms, last, rfl⟩
  · exact ⟨{ id := n, role := r, text := t, isComplete := false, timestamp := n },
      by simp [updateStreamingMessage_nil], rfl, rfl, rfl⟩
  · rw [updateStreamingMessage_concat]
    split
    · rename_i hmatch
      exact ⟨_, List.getLast?_concat ms, hmatch.1, rfl, hmatch.2⟩
    · exact ⟨_, List.getLast?_concat _, rfl, rfl, rfl⟩

/-- C1, claim as stated, is false on the code: committing the same
speaker/text twice in a row does not equal committing once — the second
commit appends a second completed turn, because after the first commit the
tail is complete and `commitMessage` then takes its append branch. -/
theorem commitMessage_twice_ne_once :
    (commitMessage Role.user "hi" 0 (commitMessage Role.user "hi" 0 [])).length = 2 ∧
      (commitMessage Role.user "hi" 0 []).length = 1 ∧
      commitMessage Role.user "hi" 0 (commitMessage Role.user "hi" 0 []) ≠
        commitMessage Role.user "hi" 0 [] := by
  refine ⟨rfl, rfl, ?_⟩
  decide

/-- C1 (amended): `commit` is not idempotent in effect.  A second
`commitMessage` with the same speaker and text, immediately after a first,
appends a fresh already-complete turn (carrying the second call's clock value
as id/timestamp), so the transcript gains a second completed turn rather than
staying at one. -/
theorem commitMessage_twice_appends (r : Role) (t : String) (n₁ n₂ : Nat)
    (prev : List ChatMessage) :
    commitMessage r t n₂ (commitMessage r t n₁ prev) =
      commitMessage r t n₁ prev ++
        [{ id := n₂, role := r, text := t, isComplete := true,
           timestamp := n₂ }] := by
  obtain ⟨m, hlast, hrole, htext, hc⟩ := commitMessage_getLast r t n₁ prev
  rcases eq_nil_or_append (commitMessage r t n₁ prev) with hnil | ⟨L, a, heq⟩
  · rw [hnil] at hlast
    simp at hlast
  · rw [heq] at hlast ⊢
    rw [List.getLast?_concat] at hlast
    obtain rfl : a = m := by injection hlast
    rw [commitMessage_concat]
    have hne : ¬ (a.role = r ∧ a.isComplete = false) := by
      rintro ⟨-, h2⟩
      rw [hc] at h2
      exact Bool.noConfusion h2
    rw [if_neg hne]

/-- C2, claim as stated, is false on the code: interleaving a user partial
and a model partial (both reachable from the empty transcript in the
streaming `onmessage` handler with no commit between them) yields two
incomplete turns, because `updateStreamingMessage` appends a fresh incomplete
message whenever the tail's role differs. -/
theorem two_incomplete_turns_reachable :
    (runStreamOps []
        [StreamOp.upd Role.user "a" 0, StreamOp.upd Role.model "b" 1]).countP
      (fun m => !m.isComplete) = 2 := by
  decide

/-- C2 (amended): the §3 invariant — every message but the tail complete,
hence at most one incomplete turn and it sits at the tail — is preserved by a
partial or commit step provided the step's speaker matches the speaker of an
incomplete tail (it always is when the tail is complete or absent).  A
partial/commit for the other speaker while the tail is incomplete breaks the
invariant, as the counterexample shows. -/
theorem allButLastComplete_preserved (msgs : List ChatMessage) (op : StreamOp)
    (hinv : allButLastComplete msgs = true)
    (hrole : ∀ last, msgs.getLast? = some last → last.isComplete = false →
      last.role = op.role) :
    allButLastComplete (applyStreamOp msgs op) = true := by
  rcases eq_nil_or_append msgs with rfl | ⟨ms, last, rfl⟩
  · cases op with
    | upd r t n => simp [applyStreamOp, updateStreamingMessage_nil, allButLastComplete]
    | com r t n => simp [applyStreamOp, commitMessage_nil, allButLastComplete]
  · have hms : ms.all (·.isComplete) = true := by
      simpa [allButLastComplete, List.dropLast_concat] using hinv
    have hlast := hrole last (List.getLast?_concat ms)
    cases op with
    | upd r t n =>
        show allButLastComplete (updateStreamingMessage r t n (ms ++ [last])) = true
        rw [updateStreamingMessage_concat]
        split
        · simpa [allButLastComplete, List.dropLast_concat] using hms
        · rename_i hmatch
          have hcomp : last.isComplete = true := by
            cases hc : last.isComplete with
            | true => rfl
            | false => exact absurd ⟨hlast hc, hc⟩ hmatch
          simp [allButLastComplete, List.dropLast_concat, List.all_append, hms, hcomp]
    | com r t n =>
        show allButLastComplete (commitMessage r t n (ms ++ [last])) = true
        rw [commitMessage_concat]
        split
        · simpa [allButLastComplete, List.dropLast_concat] using hms
        · rename_i hmatch
          have hcomp : last.isComplete = true := by
            cases hc : last.isComplete with
            | true => rfl
            | false => exact absurd ⟨hlast hc, hc⟩ hmatch
          simp [allButLastComplete, List.dropLast_concat, List.all_append, hms, hcomp]

/-- Witness for the C2 amended theorem at a concrete input: a complete user
turn followed by a model partial keeps the invariant. -/
theorem allButLastComplete_preserved_witness :
    allButLastComplete
        [{ id := 0, role := Role.user, text := "hi", isComplete := true,
           timestamp := 0 }] = true ∧
      allButLastComplete
        (applyStreamOp
          [{ id := 0, role := Role.user, text := "hi", isComplete := true,
             timestamp := 0 }]
          (StreamOp.upd Role.model "ok" 1)) = true := by
  refine ⟨by decide, ?_⟩
  apply allButLastComplete_preserved
  · decide
  · intro last hlast hc
    simp at hlast
    rw [← hlast] at hc
    exact Bool.noConfusion hc

/-- C4: the playback scheduler starts each payload at `max(outputClock, now)`
and then advances the clock by exactly the buffer's duration; consequently for
payload A (duration `d₁`) scheduled before payload B, B starts no earlier than
A's start plus `d₁`, and no earlier than its own arrival time. -/
theorem scheduleAudio_spec (clock now₁ d₁ now₂ d₂ : ℚ) :
    (scheduleAudio clock now₁ d₁).1 = max clock now₁ ∧
      (scheduleAudio clock now₁ d₁).2 = (scheduleAudio clock now₁ d₁).1 + d₁ ∧
      (scheduleAudio clock now₁ d₁).1 ≥ now₁ ∧
      (scheduleAudio (scheduleAudio clock now₁ d₁).2 now₂ d₂).1 ≥
        (scheduleAudio clock now₁ d₁).1 + d₁ ∧
      (scheduleAudio (scheduleAudio clock now₁ d₁).2 now₂ d₂).1 ≥ now₂ := by
  refine ⟨rfl, rfl, le_max_right _ _, ?_, ?_⟩
  · exact le_max_left _ _
  · exact le_max_right _ _

/-- C3, claim as stated, is false on the code: in the streaming backend the
muted branch of `onaudioprocess` returns before `setVolume` is ever called
(`useGeminiLive.ts:135`), so the previously published volume — here `1/2` —
persists instead of reading 0. -/
theorem gemini_muted_frame_keeps_stale_volume :
    (geminiProcessFrame (fun _ => 0) false [1] (1/2)).1 = 1/2 ∧
      ((1 : ℚ)/2 ≠ 0) := by
  constructor
  · rfl
  · norm_num

/-- C3 (amended): while muted, the streaming backend's audio callback
transmits nothing and publishes no volume update (the previously published
value persists, it is not forced to 0), whereas the fallback backend's
callback publishes volume 0 on every muted frame and leaves the transcript
alone; turning the mic off via `toggleMic` in the fallback backend halts the
recognition engine and zeroes the volume, and the recognition `onend`
auto-restart never fires while the mic is off. -/
theorem muted_frame_behavior (rms : List ℚ → ℚ) (frame : List ℚ) (v : ℚ)
    (st st₂ : GptState) (hmic : st.micOn = false) (hmic₂ : st₂.micOn = true) :
    geminiProcessFrame rms false frame v = (v, none) ∧
      (gptProcessFrame rms frame st).volume = 0 ∧
      (gptProcessFrame rms frame st).messages = st.messages ∧
      gptOnEnd st = st ∧
      (gptToggleMic st₂).micOn = false ∧
      (gptToggleMic st₂).recognitionActive = false ∧
      (gptToggleMic st₂).volume = 0 := by
  refine ⟨rfl, ?_, ?_, ?_, ?_, ?_, ?_⟩
  · simp [gptProcessFrame, hmic]
  · simp [gptProcessFrame, hmic]
  · simp [gptOnEnd, hmic]
  · simp [gptToggleMic, hmic₂]
  · simp [gptToggleMic, hmic₂]
  · simp [gptToggleMic, hmic₂]

/-- Lemma: `commitMessage` always leaves a complete message with the committed role
and text somewhere in the result (at the old tail position or appended). -/
theorem commitMessage_places (r : Role) (t : String) (n : Nat)
    (msgs : List ChatMessage) :
    ∃ (j : Nat) (m : ChatMessage), (commitMessage r t n msgs)[j]? = some m ∧
      m.role = r ∧ m.text = t ∧ m.isComplete = true := by
  rcases eq_nil_or_append msgs with rfl | ⟨ms, last, rfl⟩
  · refine ⟨0, { id := n, role := r, text := t, isComplete := true, timestamp := n }, ?_, rfl, rfl, rfl⟩
    simp [commitMessage_nil]
  · rw [commitMessage_concat]
    split
    · rename_i hmatch
      exact ⟨ms.length, _, List.getElem?_concat_length ms _, hmatch.1, rfl, rfl⟩
    · exact ⟨(ms ++ [last]).length, _, List.getElem?_concat_length _ _, rfl,
        rfl, rfl⟩

/-- Witness for the C3 amended theorem at a concrete input. -/
theorem muted_frame_behavior_witness :
    geminiProcessFrame (fun _ => 0) false [1] (3/4) = (3/4, none) ∧
      (gptProcessFrame (fun _ => 0) [1]
        { connectionState := ConnectionState.CONNECTED, messages := [],
          volume := 3/4, micOn := false, recognitionActive := false,
          handlersAttached := true }).volume = 0 ∧
      (gptProcessFrame (fun _ => 0) [1]
        { connectionState := ConnectionState.CONNECTED, messages := [],
          volume := 3/4, micOn := false, recognitionActive := false,
          handlersAttached := true }).messages = [] ∧
      gptOnEnd
          { connectionState := ConnectionState.CONNECTED, messages := [],
            volume := 3/4, micOn := false, recognitionActive := false,
            handlersAttached := true } =
        { connectionState := ConnectionState.CONNECTED, messages := [],
          volume := 3/4, micOn := false, recognitionActive := false,
          handlersAttached := true } ∧
      (gptToggleMic
        { connectionState := ConnectionState.CONNECTED, messages := [],
          volume := 3/4, micOn := true, recognitionActive := true,
          handlersAttached := true }).micOn = false ∧
      (gptToggleMic
        { connectionState := ConnectionState.CONNECTED, messages := [],
          volume := 3/4, micOn := true, recognitionActive := true,
          handlersAttached := true }).recognitionActive = false ∧
      (gptToggleMic
        { connectionState := ConnectionState.CONNECTED, messages := [],
          volume := 3/4, micOn := true, recognitionActive := true,
          handlersAttached := true }).volume = 0 :=
  muted_frame_behavior (fun _ => 0) [1] (3/4) _ _ rfl rfl

/-- C5: on every interruption event, every active playback handle is dropped
(the set is cleared) and the output clock resets to zero; moreover, when the
accumulated tutor transcription is non-empty it is committed immediately as a
complete model turn carrying exactly that text — and that committed turn is
never modified again by any later trace of streaming transcript operations —
while an empty accumulation leaves the transcript untouched. -/
theorem handleInterruption_spec (st : GeminiState) (now : Nat) :
    (handleInterruption now st).audioSources = [] ∧
      (handleInterruption now st).nextStartTime = 0 ∧
      (handleInterruption now st).currentOutputTranscription = "" ∧
      (st.currentOutputTranscription ≠ "" →
        (handleInterruption now st).messages =
          commitMessage Role.model st.currentOutputTranscription now st.messages ∧
        ∃ (j : Nat) (m : ChatMessage),
          (handleInterruption now st).messages[j]? = some m ∧
          m.role = Role.model ∧ m.text = st.currentOutputTranscription ∧
          m.isComplete = true ∧
          ∀ ops : List StreamOp,
            (runStreamOps (handleInterruption now st).messages ops)[j]? = some m) ∧
      (st.currentOutputTranscription = "" →
        (handleInterruption now st).messages = st.messages) := by
  by_cases h : st.currentOutputTranscription = ""
  · have hred : handleInterruption now st =
        { st with audioSources := [], nextStartTime := 0 } := by
      simp only [handleInterruption]
      rw [if_neg (by simpa using h)]
    rw [hred]
    exact ⟨rfl, rfl, h, fun hne => absurd h hne, fun _ => rfl⟩
  · have hred : handleInterruption now st =
        { st with
            audioSources := [], nextStartTime := 0,
            messages := commitMessage Role.model st.currentOutputTranscription
              now st.messages,
            currentOutputTranscription := "" } := by
      simp only [handleInterruption]
      rw [if_pos h]
    rw [hred]
    refine ⟨rfl, rfl, rfl, fun _ => ⟨rfl, ?_⟩, fun he => absurd he h⟩
    obtain ⟨j, m, hj, hrole, htext, hc⟩ :=
      commitMessage_places Role.model st.currentOutputTranscription now st.messages
    exact ⟨j, m, hj, hrole, htext, hc,
      fun ops => getElem?_runStreamOps_of_complete ops _ j m hj hc⟩

/-- Witness for C5 at a concrete input: interruption with accumulated tutor
text "Today we will practice" and two buffers mid-playback. -/
def interruptedState : GeminiState :=
  { messages := [{ id := 0, role := Role.user, text := "hello",
                   isComplete := true, timestamp := 0 }],
    audioSources := [1, 2],
    nextStartTime := 5,
    currentInputTranscription := "",
    currentOutputTranscription := "Today we will practice" }

/-- Closed instantiation of the C5 theorem at `interruptedState`, with the
non-empty-accumulation implication discharged there. -/
theorem handleInterruption_spec_witness :
    (handleInterruption 9 interruptedState).audioSources = [] ∧
      (handleInterruption 9 interruptedState).nextStartTime = 0 ∧
      (handleInterruption 9 interruptedState).currentOutputTranscription = "" ∧
      ((handleInterruption 9 interruptedState).messages =
        commitMessage Role.model
          interruptedState.currentOutputTranscription 9
          interruptedState.messages ∧
      ∃ (j : Nat) (m : ChatMessage), (handleInterruption 9 interruptedState).messages[j]? = some m ∧
        m.role = Role.model ∧
        m.text = interruptedState.currentOutputTranscription ∧
        m.isComplete = true ∧
        ∀ ops : List StreamOp,
          (runStreamOps (handleInterruption 9 interruptedState).messages
            ops)[j]? = some m) := by
  obtain ⟨h1, h2, h3, h4, -⟩ := handleInterruption_spec interruptedState 9
  exact ⟨h1, h2, h3, h4 (by decide)⟩

/-- A state torn down by `disconnect` while a completion request was still in
flight for the pending tutor turn with id 7. -/
def staleState : GptState :=
  gptDisconnect
    { connectionState := ConnectionState.CONNECTED,
      messages :=
        [{ id := 1, role := Role.user, text := "hi", isComplete := true,
           timestamp := 1 },
         { id := 7, role := Role.model, text := thinkingText,
           isComplete := false, timestamp := 7 }],
      volume := 0, micOn := true, recognitionActive := true,
      handlersAttached := true }

/-- C6, claim as stated, is false on the code: a completion request that
resolves after `disconnect` is not inert — its continuation still rewrites
the transcript and, on failure, moves the disconnected session's phase to
Error.  No session-generation guard exists in `useGptTutor.ts:217-233`. -/
theorem stale_completion_mutates_after_disconnect :
    staleState.connectionState = ConnectionState.DISCONNECTED ∧
      (resolveCompletionFailure 7 staleState).connectionState =
        ConnectionState.ERROR ∧
      (resolveCompletionFailure 7 staleState).messages ≠ staleState.messages := by
  refine ⟨rfl, rfl, ?_⟩
  decide

/-- C6 (amended): `disconnect` detaches the recognition handlers before
stopping the engine, so handler-driven events (such as the `onend`
auto-restart) fired after teardown are inert; but in-flight completion
continuations are not generation-guarded: one resolving after `disconnect`
still rewrites the pending turn via `resolveTurn`, and a failing one moves
the phase of the torn-down session to Error. -/
theorem disconnect_inertness_partial (st : GptState) (pid : Nat) (t : String) :
    gptOnEnd (gptDisconnect st) = gptDisconnect st ∧
      (gptDisconnect st).connectionState = ConnectionState.DISCONNECTED ∧
      (gptDisconnect st).messages = st.messages ∧
      (resolveCompletionSuccess pid t (gptDisconnect st)).messages =
        resolveTurn pid t st.messages ∧
      (resolveCompletionFailure pid (gptDisconnect st)).connectionState =
        ConnectionState.ERROR ∧
      (resolveCompletionFailure pid (gptDisconnect st)).messages =
        resolveTurn pid openAiErrorText st.messages := by
  refine ⟨?_, rfl, rfl, rfl, rfl, rfl⟩
  simp [gptOnEnd, gptDisconnect]

/-- The text of the last fragment of a partial-update burst, defaulting to
`d` when the burst is empty. -/
def lastFragText : List (String × Nat) → String → String
  | [], d => d
  | f :: rest, _ => lastFragText rest f.1

theorem applyPartials_cons (r : Role) (f : String × Nat)
    (rest : List (String × Nat)) (prev : List ChatMessage) :
    applyPartials r prev (f :: rest) =
      applyPartials r (updateStreamingMessage r f.1 f.2 prev) rest := rfl

/-- Closed form of a burst of same-speaker partials over a pending tail: each
fragment replaces the tail's text in place, so the whole burst only rewrites
the tail's text to the last fragment's. -/
theorem applyPartials_pending (r : Role) (frags : List (String × Nat)) :
    ∀ (ms : List ChatMessage) (m₀ : ChatMessage), m₀.role = r →
      m₀.isComplete = false →
      applyPartials r (ms ++ [m₀]) frags =
        ms ++ [{ m₀ with text := lastFragText frags m₀.text }] := by
  induction frags with
  | nil =>
      intro ms m₀ hr hc
      rfl
  | cons f rest ih =>
      intro ms m₀ hr hc
      rw [applyPartials_cons, updateStreamingMessage_concat, if_pos ⟨hr, hc⟩]
      exact ih ms { m₀ with text := f.1 } hr hc

theorem lastFragText_getLast (frags : List (String × Nat)) :
    ∀ (t : String) (k : Nat) (d : String), frags.getLast? = some (t, k) →
      lastFragText frags d = t := by
  induction frags with
  | nil => intro t k d h; simp at h
  | cons f rest ih =>
      intro t k d h
      cases rest with
      | nil =>
          simp at h
          rw [show lastFragText [f] d = f.1 from rfl, h]
      | cons g rest₂ =>
          rw [List.getLast?_cons_cons] at h
          exact ih t k f.1 h

/-- C7: a burst of `n ≥ 1` same-speaker partial updates with no intervening
commit grows the transcript by at most one turn, and afterwards the tail turn
is an incomplete turn of that speaker whose text is exactly the latest
fragment. -/
theorem applyPartials_length_tail (r : Role) (prev : List ChatMessage)
    (frags : List (String × Nat)) (h : frags ≠ []) :
    (applyPartials r prev frags).length ≤ prev.length + 1 ∧
      ∃ (t : String) (k : Nat) (m : ChatMessage), frags.getLast? = some (t, k) ∧
        (applyPartials r prev frags).getLast? = some m ∧
        m.role = r ∧ m.isComplete = false ∧ m.text = t := by
  cases frags with
  | nil => exact absurd rfl h
  | cons f rest =>
      have key : ∃ (M : List ChatMessage) (x : ChatMessage),
          updateStreamingMessage r f.1 f.2 prev = M ++ [x] ∧
            x.role = r ∧ x.isComplete = false ∧ x.text = f.1 ∧
            M.length + 1 ≤ prev.length + 1 := by
        rcases eq_nil_or_append prev with rfl | ⟨ms, last, rfl⟩
        · exact ⟨[], _, updateStreamingMessage_nil r f.1 f.2, rfl, rfl, rfl,
            Nat.le_refl 1⟩
        · rw [updateStreamingMessage_concat]
          split
          · rename_i hmatch
            exact ⟨ms, _, rfl, hmatch.1, hmatch.2, rfl, by simp⟩
          · exact ⟨ms ++ [last], _, rfl, rfl, rfl, rfl, by simp⟩
      obtain ⟨M, x, hupd, hxr, hxc, hxt, hlen⟩ := key
      rw [applyPartials_cons, hupd, applyPartials_pending r rest M x hxr hxc]
      constructor
      · simpa using hlen
      · cases rest with
        | nil =>
            refine ⟨f.1, f.2, _, by simp, List.getLast?_concat M, hxr, hxc, ?_⟩
            rw [show lastFragText [] x.text = x.text from rfl, hxt]
        | cons g rest₂ =>
            have hne : (g :: rest₂) ≠ ([] : List (String × Nat)) := by simp
            obtain ⟨p, hp⟩ : ∃ p, (g :: rest₂).getLast? = some p := by
              cases e : (g :: rest₂).getLast? with
              | none => exact absurd (List.getLast?_eq_none_iff.mp e) hne
              | some p => exact ⟨p, rfl⟩
            refine ⟨p.1, p.2, _, ?_, List.getLast?_concat M, hxr, hxc, ?_⟩
            · rw [List.getLast?_cons_cons]
              rw [hp]
            · exact lastFragText_getLast (g :: rest₂) p.1 p.2 x.text (by rw [hp])

/-- Witness for C7 at a concrete input: the fallback scenario "I", "I goes",
"I goes to school" as cumulative fragments of one user turn over an empty
transcript. -/
theorem applyPartials_length_tail_witness :
    (applyPartials Role.user [] [("I", 1), ("I goes", 2), ("I goes to school", 3)]).length ≤ 0 + 1 ∧
      ∃ (t : String) (k : Nat) (m : ChatMessage),
        ([("I", 1), ("I goes", 2), ("I goes to school", 3)] : List (String × Nat)).getLast? = some (t, k) ∧
        (applyPartials Role.user [] [("I", 1), ("I goes", 2), ("I goes to school", 3)]).getLast? = some m ∧
        m.role = Role.user ∧ m.isComplete = false ∧ m.text = t :=
  applyPartials_length_tail Role.user []
    [("I", 1), ("I goes", 2), ("I goes to school", 3)] (by simp)

theorem resolveTurn_getElem (pid : Nat) (t : String) (msgs : List ChatMessage)
    (i : Nat) :
    (resolveTurn pid t msgs)[i]? = msgs[i]?.map fun m =>
      if m.id = pid then { m with text := t, isComplete := true } else m := by
  simp [resolveTurn, List.getElem?_map]

/-- C8: when the completion request of the fallback backend fails, the
pending placeholder tutor turn (located by its id) is marked complete with
the visible error text, no turn with that id remains incomplete, every other
turn is untouched, and the session's phase becomes Error. -/
theorem completionFailure_spec (st : GptState) (pid : Nat) (i : Nat)
    (m : ChatMessage) (hm : st.messages[i]? = some m) (hid : m.id = pid) :
    (resolveCompletionFailure pid st).connectionState = ConnectionState.ERROR ∧
      (resolveCompletionFailure pid st).messages[i]? =
        some { m with text := openAiErrorText, isComplete := true } ∧
      (∀ (j : Nat) (m' : ChatMessage), st.messages[j]? = some m' →
        m'.id ≠ pid → (resolveCompletionFailure pid st).messages[j]? = some m') ∧
      (∀ (j : Nat) (m' : ChatMessage),
        (resolveCompletionFailure pid st).messages[j]? = some m' →
        m'.id = pid → m'.isComplete = true) := by
  refine ⟨rfl, ?_, ?_, ?_⟩
  · show (resolveTurn pid openAiErrorText st.messages)[i]? = _
    rw [resolveTurn_getElem, hm]
    simp [hid]
  · intro j m' hj hne
    show (resolveTurn pid openAiErrorText st.messages)[j]? = _
    rw [resolveTurn_getElem, hj]
    simp [hne]
  · intro j m' hj hjid
    have hj' : (resolveTurn pid openAiErrorText st.messages)[j]? = some m' := hj
    rw [resolveTurn_getElem] at hj'
    cases e : st.messages[j]? with
    | none =>
        rw [e] at hj'
        exact absurd hj' (by simp)
    | some m₀ =>
        rw [e] at hj'
        simp only [Option.map_some'] at hj'
        obtain rfl := Option.some.inj hj'
        by_cases h0 : m₀.id = pid
        · rw [if_pos h0]
        · rw [if_neg h0] at hjid ⊢
          exact absurd hjid h0

/-- A connected fallback session whose transcript holds one complete user
turn (id 1) and the pending placeholder tutor turn (id 7). -/
def pendingState : GptState :=
  { connectionState := ConnectionState.CONNECTED,
    messages :=
      [{ id := 1, role := Role.user, text := "hi", isComplete := true,
         timestamp := 1 },
       { id := 7, role := Role.model, text := thinkingText,
         isComplete := false, timestamp := 7 }],
    volume := 0, micOn := true, recognitionActive := true,
    handlersAttached := true }

/-- Witness for C8 at a concrete input: the pending placeholder with id 7. -/
theorem completionFailure_spec_witness :
    (resolveCompletionFailure 7 pendingState).connectionState =
      ConnectionState.ERROR ∧
      (resolveCompletionFailure 7 pendingState).messages[1]? =
        some { id := 7, role := Role.model, text := openAiErrorText,
               isComplete := true, timestamp := 7 } :=
  ⟨(completionFailure_spec pendingState 7 1
      { id := 7, role := Role.model, text := thinkingText,
        isComplete := false, timestamp := 7 } rfl rfl).1,
    (completionFailure_spec pendingState 7 1
      { id := 7, role := Role.model, text := thinkingText,
        isComplete := false, timestamp := 7 } rfl rfl).2.1⟩

/-- C10: resolving a completion (success or failure) is a pure per-id map
over the transcript: the length and order are unchanged, every turn whose id
differs from the placeholder's is untouched, and every turn with the
placeholder's id gets exactly the new text and the complete mark while
keeping its id, role and timestamp.  Both continuations (`then` and `catch`
branch) go through this same `resolveTurn`. -/
theorem resolveTurn_frame (pid : Nat) (t : String) (msgs : List ChatMessage) :
    (resolveTurn pid t msgs).length = msgs.length ∧
      (∀ (i : Nat) (m : ChatMessage), msgs[i]? = some m → m.id ≠ pid →
        (resolveTurn pid t msgs)[i]? = some m) ∧
      (∀ (i : Nat) (m : ChatMessage), msgs[i]? = some m → m.id = pid →
        (resolveTurn pid t msgs)[i]? =
          some { m with text := t, isComplete := true }) ∧
      (∀ st : GptState,
        (resolveCompletionSuccess pid t st).messages =
            resolveTurn pid t st.messages ∧
          (resolveCompletionFailure pid st).messages =
            resolveTurn pid openAiErrorText st.messages) := by
  refine ⟨by simp [resolveTurn], ?_, ?_, fun st => ⟨rfl, rfl⟩⟩
  · intro i m hm hne
    rw [resolveTurn_getElem, hm]
    simp [hne]
  · intro i m hm hid
    rw [resolveTurn_getElem, hm]
    simp [hid]

/-- Witness for C10 at a concrete input: resolving id 7 in a two-turn
transcript rewrites only the second turn. -/
theorem resolveTurn_frame_witness :
    (resolveTurn 7 "ok"
        [{ id := 1, role := Role.user, text := "hi", isComplete := true,
           timestamp := 1 },
         { id := 7, role := Role.model, text := thinkingText,
           isComplete := false, timestamp := 7 }]).length = 2 ∧
      (resolveTurn 7 "ok"
        [{ id := 1, role := Role.user, text := "hi", isComplete := true,
           timestamp := 1 },
         { id := 7, role := Role.model, text := thinkingText,
           isComplete := false, timestamp := 7 }])[0]? =
        some { id := 1, role := Role.user, text := "hi", isComplete := true,
               timestamp := 1 } ∧
      (resolveTurn 7 "ok"
        [{ id := 1, role := Role.user, text := "hi", isComplete := true,
           timestamp := 1 },
         { id := 7, role := Role.model, text := thinkingText,
           isComplete := false, timestamp := 7 }])[1]? =
        some { id := 7, role := Role.model, text := "ok", isComplete := true,
               timestamp := 7 } :=
  ⟨(resolveTurn_frame 7 "ok" _).1,
    (resolveTurn_frame 7 "ok" _).2.1 0 _ rfl (by decide),
    (resolveTurn_frame 7 "ok" _).2.2.1 1
      { id := 7, role := Role.model, text := thinkingText,
        isComplete := false, timestamp := 7 } rfl rfl⟩

/-! ### Id uniqueness -/

theorem map_id_updateStreamingMessage (r : Role) (t : String) (n : Nat)
    (msgs : List ChatMessage) :
    (updateStreamingMessage r t n msgs).map (·.id) = msgs.map (·.id) ∨
      (updateStreamingMessage r t n msgs).map (·.id) =
        msgs.map (·.id) ++ [n] := by
  rcases eq_nil_or_append msgs with rfl | ⟨ms, last, rfl⟩
  · right
    simp [updateStreamingMessage_nil]
  · rw [updateStreamingMessage_concat]
    split
    · left
      simp
    · right
      simp

theorem map_id_commitMessage (r : Role) (t : String) (n : Nat)
    (msgs : List ChatMessage) :
    (commitMessage r t n msgs).map (·.id) = msgs.map (·.id) ∨
      (commitMessage r t n msgs).map (·.id) = msgs.map (·.id) ++ [n] := by
  rcases eq_nil_or_append msgs with rfl | ⟨ms, last, rfl⟩
  · right
    simp [commitMessage_nil]
  · rw [commitMessage_concat]
    split
    · left
      simp
    · right
      simp

theorem map_id_appendPlaceholder (n : Nat) (msgs : List ChatMessage) :
    (appendPlaceholder n msgs).map (·.id) = msgs.map (·.id) ++ [n] := by
  simp [appendPlaceholder]

theorem map_id_resolveTurn (pid : Nat) (t : String)
    (msgs : List ChatMessage) :
    (resolveTurn pid t msgs).map (·.id) = msgs.map (·.id) := by
  simp only [resolveTurn, List.map_map]
  refine List.map_congr_left ?_
  intro a _
  by_cases h : a.id = pid
  · simp [Function.comp, h]
  · simp [Function.comp, h]

/-- One id-creating step preserves id-distinctness when the new clock value
exceeds every id already present. -/
theorem nodup_step (msgs new : List ChatMessage) (b n : Nat)
    (heff : new.map (·.id) = msgs.map (·.id) ∨
      new.map (·.id) = msgs.map (·.id) ++ [n])
    (hnd : (msgs.map (·.id)).Nodup) (hb : ∀ m ∈ msgs, m.id ≤ b) (hbn : b < n) :
    (new.map (·.id)).Nodup ∧ ∀ m ∈ new, m.id ≤ n := by
  rcases heff with he | he
  · refine ⟨by rw [he]; exact hnd, ?_⟩
    intro m hm
    have hmem : m.id ∈ msgs.map (·.id) := by
      rw [← he]
      exact List.mem_map_of_mem _ hm
    obtain ⟨m₀, hm₀, hid⟩ := List.mem_map.mp hmem
    rw [← hid]
    exact le_trans (hb m₀ hm₀) (Nat.le_of_lt hbn)
  · constructor
    · rw [he]
      refine List.Nodup.append hnd (List.nodup_singleton n) ?_
      intro x hx hx'
      rw [List.mem_singleton] at hx'
      subst hx'
      obtain ⟨m₀, hm₀, hid⟩ := List.mem_map.mp hx
      exact absurd (hid ▸ hb m₀ hm₀) (Nat.not_le_of_lt hbn)
    · intro m hm
      have hmem : m.id ∈ msgs.map (·.id) ++ [n] := by
        rw [← he]
        exact List.mem_map_of_mem _ hm
      rcases List.mem_append.mp hmem with hx | hx
      · obtain ⟨m₀, hm₀, hid⟩ := List.mem_map.mp hx
        rw [← hid]
        exact le_trans (hb m₀ hm₀) (Nat.le_of_lt hbn)
      · rw [List.mem_singleton] at hx
        exact Nat.le_of_eq hx

/-- Invariant induction: from a transcript with pairwise-distinct ids all at
most `b`, any trace whose creation clock values strictly increase above `b`
keeps all ids pairwise distinct. -/
theorem runTurnOps_ids_nodup_aux (ops : List TurnOp) :
    ∀ (msgs : List ChatMessage) (b : Nat), (msgs.map (·.id)).Nodup →
      (∀ m ∈ msgs, m.id ≤ b) → nowsAbove b ops = true →
      ((runTurnOps msgs ops).map (·.id)).Nodup := by
  induction ops with
  | nil =>
      intro msgs b h _ _
      exact h
  | cons op rest ih =>
      intro msgs b hnd hb hn
      show ((runTurnOps (applyTurnOp msgs op) rest).map (·.id)).Nodup
      cases op with
      | upd r t n =>
          have h1 : (b < n) ∧ nowsAbove n rest = true := by
            simpa [nowsAbove, TurnOp.creationTime, Bool.and_eq_true] using hn
          obtain ⟨hs, h2⟩ := nodup_step msgs _ b n
            (map_id_updateStreamingMessage r t n msgs) hnd hb h1.1
          exact ih _ n hs h2 h1.2
      | com r t n =>
          have h1 : (b < n) ∧ nowsAbove n rest = true := by
            simpa [nowsAbove, TurnOp.creationTime, Bool.and_eq_true] using hn
          obtain ⟨hs, h2⟩ := nodup_step msgs _ b n
            (map_id_commitMessage r t n msgs) hnd hb h1.1
          exact ih _ n hs h2 h1.2
      | pend n =>
          have h1 : (b < n) ∧ nowsAbove n rest = true := by
            simpa [nowsAbove, TurnOp.creationTime, Bool.and_eq_true] using hn
          obtain ⟨hs, h2⟩ := nodup_step msgs _ b n
            (Or.inr (map_id_appendPlaceholder n msgs)) hnd hb h1.1
          exact ih _ n hs h2 h1.2
      | res pid t =>
          have h1 : nowsAbove b rest = true := by
            simpa [nowsAbove, TurnOp.creationTime] using hn
          have hids := map_id_resolveTurn pid t msgs
          refine ih _ b ?_ ?_ h1
          · show ((resolveTurn pid t msgs).map (·.id)).Nodup
            rw [hids]
            exact hnd
          · intro m hm
            have hmem : m.id ∈ msgs.map (·.id) := by
              rw [← hids]
              exact List.mem_map_of_mem _ hm
            obtain ⟨m₀, hm₀, hid⟩ := List.mem_map.mp hmem
            rw [← hid]
            exact hb m₀ hm₀

/-- C9, claim as stated, is false on the code: ids are `Date.now().toString()`
at creation, so two turn-creating operations in the same millisecond (here
both at clock value 5) produce two distinct turns with the same id. -/
theorem duplicate_ids_same_clock :
    (runTurnOps []
        [TurnOp.upd Role.user "a" 5, TurnOp.upd Role.model "b" 5]).map
      (·.id) = [5, 5] ∧ ¬ ([5, 5] : List Nat).Nodup := by
  constructor
  · decide
  · decide

/-- C9 (amended): message ids are pairwise distinct on every trace of
turn-creating operations (partials, commits, placeholder insertions) and
placeholder resolutions, *provided* the creation clock values are strictly
increasing across the trace; because each created id is exactly the creation
clock value, two creations sharing a clock value share an id (see the
counterexample). -/
theorem ids_nodup_of_increasing_clock (b : Nat) (ops : List TurnOp)
    (h : nowsAbove b ops = true) :
    ((runTurnOps [] ops).map (·.id)).Nodup :=
  runTurnOps_ids_nodup_aux ops [] b (by simp) (by simp) h

/-- Witness for the C9 amended theorem on a concrete strictly-clocked trace. -/
theorem ids_nodup_of_increasing_clock_witness :
    nowsAbove 0
        [TurnOp.upd Role.user "a" 1, TurnOp.com Role.user "a" 2,
         TurnOp.pend 3, TurnOp.res 3 "ok"] = true ∧
      ((runTurnOps []
          [TurnOp.upd Role.user "a" 1, TurnOp.com Role.user "a" 2,
           TurnOp.pend 3, TurnOp.res 3 "ok"]).map (·.id)).Nodup :=
  ⟨by decide,
    ids_nodup_of_increasing_clock 0
      [TurnOp.upd Role.user "a" 1, TurnOp.com Role.user "a" 2,
       TurnOp.pend 3, TurnOp.res 3 "ok"] (by decide)⟩
